import Mathlib

/-!
Verification of the osm2es ingestion pipeline (src/scripts/handler.py,
src/scripts/osm2es.py, src/scripts/tags.py).

The stateful Python code is shallowly embedded as explicit state passing:
the `OSMtoESHandler` accumulator state becomes `AccState`, the
multiprocessing queue becomes the trace of items put onto it, and the
worker loop becomes a recursive function over the list of items it
dequeues.
-/

namespace Osm2Es

/-- An item travelling through the Dispatch Queue.  handler.py puts triples
`(ts, job_counter, data)`; the termination token is `(None, None, None)`,
recognised by `ts is None` in `writer_thread`.  The timestamp plays no role
in any claim, so a batch is modelled by its `job_counter` and `data`. -/
inductive QItem (α : Type) where
  | batch (job_counter : Nat) (data : List α)
  | token
deriving DecidableEq

/-- The accumulator-side state of `OSMtoESHandler` (handler.py):
`db_cache_size`, `job_counter`, `pending`, `pendingCount`, and the queue,
modelled as the trace of items put onto it so far. -/
structure AccState (α : Type) where
  db_cache_size : Nat
  job_counter : Nat
  pending : List α
  pendingCount : Nat
  queue : List (QItem α)
deriving DecidableEq

/-- handler.py `OSMtoESHandler.flush` (lines 278-291): if `pendingCount`
is zero, return; otherwise put `(ts, job_counter, pending)` on the queue,
increment `job_counter`, reset `pending` and `pendingCount`. -/
def flush {α : Type} (s : AccState α) : AccState α :=
  if s.pendingCount = 0 then s
  else
    { s with
      queue := s.queue ++ [QItem.batch s.job_counter s.pending]
      job_counter := s.job_counter + 1
      pending := []
      pendingCount := 0 }

/-- handler.py `OSMtoESHandler.finalize_object` (lines 258-275): append the
object to `pending`, increment `pendingCount`, and flush once the count
reaches `db_cache_size`.  The `if obj:` guard is always true for the
non-empty dicts built by `process_element`, so an accepted record is always
appended. -/
def finalize_object {α : Type} (s : AccState α) (obj : α) : AccState α :=
  let s1 := { s with pending := s.pending ++ [obj], pendingCount := s.pendingCount + 1 }
  if s1.db_cache_size ≤ s1.pendingCount then flush s1 else s1

/-- The accumulator fields as initialised by `OSMtoESHandler.__init__`
(handler.py lines 77-95): `job_counter = 1`, empty pending buffer, empty
queue trace, threshold `K = opts.db_cache_size`. -/
def initAcc (α : Type) (K : Nat) : AccState α :=
  { db_cache_size := K, job_counter := 1, pending := [], pendingCount := 0, queue := [] }

/-- Feeding a sequence of accepted records to the accumulator, one
`finalize_object` call per record. -/
def processAll {α : Type} (s : AccState α) (l : List α) : AccState α :=
  l.foldl finalize_object s

/-- The batches sealed so far: the data components of the batch items put
onto the queue, in order. -/
def sealedBatches {α : Type} (s : AccState α) : List (List α) :=
  s.queue.filterMap (fun it =>
    match it with
    | QItem.batch _ d => some d
    | QItem.token => none)

/-- osm2es.py `OSMtoESHandler.save_cache` (lines 194-204): bulk-write the
cache and clear it.  Only the sealing behaviour matters here, so the state
is the pair (cache, batches saved so far). -/
def save_cache {α : Type} (st : List α × List (List α)) : List α × List (List α) :=
  ([], st.2 ++ [st.1])

/-- osm2es.py `OSMtoESHandler.check_cache_save` (lines 182-187): save the
cache when `len(self.cache) % self.db_cache_size == 0`. -/
def check_cache_save {α : Type} (K : Nat) (st : List α × List (List α)) :
    List α × List (List α) :=
  if st.1.length % K = 0 then save_cache st else st

/-- One accepted record in the osm2es.py variant: the per-kind handlers
append the shaped object to `self.cache` and then `increment_cache` runs
`check_cache_save`. -/
def variant_accept {α : Type} (K : Nat) (st : List α × List (List α)) (obj : α) :
    List α × List (List α) :=
  check_cache_save K (st.1 ++ [obj], st.2)

/-- Outcome of one `elasticsearch.helpers.bulk` call as observed by
`write_actions`: either a pair `(actions, errs)` or a raised exception. -/
inductive BulkResult where
  | ok (actions : Option Nat) (errs : List String)
  | exn (msg : String)
deriving DecidableEq

/-- handler.py `write_actions` (lines 59-74): run `bulk`, log the count of
failed documents, and return the accepted count, `0` when `actions` is
`None`; on any exception, log an error and return 0.  The remote call is
modelled by the oracle `bulk`, mapping batch data to its outcome. -/
def write_actions {α : Type} (bulk : List α → BulkResult) (data : List α) : Nat :=
  match bulk data with
  | BulkResult.ok none _ => 0
  | BulkResult.ok (some a) _ => a
  | BulkResult.exn _ => 0

/-- handler.py `writer_thread` (lines 38-57): loop on `queue.get()`; a
termination token (`ts is None`) makes the worker log and return its
cumulative `indexed_docs`; a batch adds `write_actions` to the total.  The
list argument is the sequence of items this worker dequeues; the result is
`none` while no token has arrived (the worker is still in its loop). -/
def writer_thread {α : Type} (bulk : List α → BulkResult) :
    List (QItem α) → Nat → Option Nat
  | [], _ => none
  | QItem.token :: _, indexed => some indexed
  | QItem.batch _ d :: rest, indexed =>
      writer_thread bulk rest (indexed + write_actions bulk d)

/-- A concrete bulk oracle: batches of length one raise, any other batch
is fully accepted. -/
def bulkDemo : List Nat → BulkResult :=
  fun d =>
    if d.length = 1 then BulkResult.exn "connection reset"
    else BulkResult.ok (some d.length) []

/-- The per-kind record counter initialised in `OSMtoESHandler.__init__`
(handler.py lines 88-95), with keys node, way, rel and area. -/
structure OsmCounter where
  node : Nat
  way : Nat
  rel : Nat
  area : Nat
deriving DecidableEq

/-- `sum(self.counter.values())`. -/
def counterTotal (c : OsmCounter) : Nat :=
  c.node + c.way + c.rel + c.area

/-- handler.py `show_import_status` (lines 132-141): log the four counts
when the running total is an exact multiple of 50000.  `some c` is the
logged line carrying the counts, `none` means nothing is emitted. -/
def show_import_status (c : OsmCounter) : Option OsmCounter :=
  if counterTotal c % 50000 = 0 then some c else none

/-- The record kinds of tags.py `OSM_TAGS` (lines 35-83). -/
inductive OsmType where
  | node
  | way
  | area
  | relation
deriving DecidableEq

/-- `self.counter[type] += 1` in `process_element` (handler.py line 196).
The pipeline only ever reaches this with node, way or area; the relation
arm (counter key "rel") is never exercised because `relation` is a
no-op. -/
def bumpCounter (c : OsmCounter) : OsmType → OsmCounter
  | OsmType.node => { c with node := c.node + 1 }
  | OsmType.way => { c with way := c.way + 1 }
  | OsmType.area => { c with area := c.area + 1 }
  | OsmType.relation => { c with rel := c.rel + 1 }

/-- The mutable handler state touched by the per-kind callbacks: the
accumulator plus the per-kind counter. -/
structure HState (α : Type) where
  acc : AccState α
  counter : OsmCounter
deriving DecidableEq

/-- The state effects of handler.py `process_element` (lines 166-198):
increment the counter for the kind, run `show_import_status` (a log, no
state change), and `finalize_object` the shaped record. -/
def process_element {α : Type} (st : HState α) (k : OsmType) (element_db : α) : HState α :=
  { acc := finalize_object st.acc element_db, counter := bumpCounter st.counter k }

/-- An osmium node as seen by `OSMtoESHandler.node`: its guards and the
result of shaping it inside the `try` block.  `shaped = none` means an
exception is raised while shaping, before any state is mutated. -/
structure NodeObj (α : Type) where
  visible : Bool
  location_valid : Bool
  shaped : Option α
deriving DecidableEq

/-- An osmium way as seen by `OSMtoESHandler.way`. -/
structure WayObj (α : Type) where
  visible : Bool
  shaped : Option α
deriving DecidableEq

/-- An osmium area as seen by `OSMtoESHandler.area`. -/
structure AreaObj (α : Type) where
  visible : Bool
  shaped : Option α
deriving DecidableEq

/-- handler.py `node` (lines 200-215): inside `try`, process the object
when it is visible with a valid location; any exception is caught and
logged, leaving the state untouched. -/
def node_handler {α : Type} (st : HState α) (obj : NodeObj α) : HState α :=
  if obj.visible && obj.location_valid then
    match obj.shaped with
    | some r => process_element st OsmType.node r
    | none => st
  else st

/-- handler.py `way` (lines 217-232): return early when not visible;
otherwise shape and process, catching and logging any exception. -/
def way_handler {α : Type} (st : HState α) (obj : WayObj α) : HState α :=
  if !obj.visible then st
  else
    match obj.shaped with
    | some r => process_element st OsmType.way r
    | none => st

/-- handler.py `relation` (lines 234-238): `pass`. -/
def relation_handler {α : Type} (st : HState α) : HState α :=
  st

/-- handler.py `area` (lines 240-256): return early when not visible;
otherwise shape and process, catching and logging any exception. -/
def area_handler {α : Type} (st : HState α) (obj : AreaObj α) : HState α :=
  if !obj.visible then st
  else
    match obj.shaped with
    | some r => process_element st OsmType.area r
    | none => st

/-- One object delivered by `apply_file` to the handler callbacks. -/
inductive OsmInput (α : Type) where
  | nodeIn (o : NodeObj α)
  | wayIn (o : WayObj α)
  | relIn
  | areaIn (o : AreaObj α)
deriving DecidableEq

/-- Dispatch of one parsed object to its callback. -/
def apply_input {α : Type} (st : HState α) : OsmInput α → HState α
  | OsmInput.nodeIn o => node_handler st o
  | OsmInput.wayIn o => way_handler st o
  | OsmInput.relIn => relation_handler st
  | OsmInput.areaIn o => area_handler st o

/-- `self.apply_file(...)` (handler.py line 303): the record source calls
the handler once per object, in order. -/
def apply_file {α : Type} (st : HState α) (l : List (OsmInput α)) : HState α :=
  l.foldl apply_input st

/-- The handler state as left by `OSMtoESHandler.__init__`: fresh
accumulator and all counters zero. -/
def initHandler (α : Type) (K : Nat) : HState α :=
  { acc := initAcc α K, counter := { node := 0, way := 0, rel := 0, area := 0 } }

/-- Observable steps of `OSMtoESHandler.run` (handler.py lines 293-319)
after the input file is exhausted. -/
inductive RunEvent (α : Type) where
  | flushCall
  | putItem (it : QItem α)
  | closeQueue
  | joinWorker (w : Nat)
  | statusReport (r : Option OsmCounter)
deriving DecidableEq

/-- The shutdown sequence of `OSMtoESHandler.run` (lines 305-319): one
`flush()`, then one token `put` per writer, then `queue.close()`, then
`p.join()` for each writer, then a final `show_import_status()`.  The
token puts are a fold over the writer list, mirroring the `for` loop, and
every put is also recorded on the queue trace. -/
def run_shutdown {α : Type} (st : HState α) (writers : List Nat) :
    HState α × List (RunEvent α) :=
  let p := writers.foldl
    (fun (p : AccState α × List (RunEvent α)) _ =>
      ({ p.1 with queue := p.1.queue ++ [QItem.token] },
        p.2 ++ [RunEvent.putItem QItem.token]))
    (flush st.acc, [RunEvent.flushCall])
  ({ st with acc := p.1 },
    p.2 ++ [RunEvent.closeQueue] ++ writers.map RunEvent.joinWorker
      ++ [RunEvent.statusReport (show_import_status st.counter)])

/-- Marks the put of a termination token in the run trace. -/
def isTokenPut {α : Type} : RunEvent α → Bool
  | RunEvent.putItem QItem.token => true
  | _ => false

/-- Marks a `p.join()` in the run trace. -/
def isJoin {α : Type} : RunEvent α → Bool
  | RunEvent.joinWorker _ => true
  | _ => false

/-- handler.py `__init__` (lines 97-118): `create_index` is attempted in a
`try` before the queue exists and before any worker is started; on
failure, `ValueError` aborts construction.  `createIndexOk` is the outcome
of the one-time index-creation call; the `ok` branch carries the fresh
handler state and the number of workers started. -/
def handler_init (α : Type) (createIndexOk : Bool) (K W : Nat) :
    Except String (HState α × Nat) :=
  if createIndexOk then Except.ok (initHandler α K, W)
  else Except.error "Error creating the ES index, check URL and credentials"

/-- The program once configuration is resolved: construct the handler
(which may abort) and then `run`: apply the input file and shut down. -/
def osm2es_run (α : Type) (createIndexOk : Bool) (K W : Nat)
    (inputs : List (OsmInput α)) : Except String (HState α × List (RunEvent α)) :=
  match handler_init α createIndexOk K W with
  | Except.error e => Except.error e
  | Except.ok (st0, w) => Except.ok (run_shutdown (apply_file st0 inputs) (List.range w))

/-- True of an input object whose shaping raises an exception inside the
per-kind handler's `try` block. -/
def raisesShaping {α : Type} : OsmInput α → Bool
  | OsmInput.nodeIn o => o.shaped.isNone
  | OsmInput.wayIn o => o.shaped.isNone
  | OsmInput.areaIn o => o.shaped.isNone
  | OsmInput.relIn => false

/-- tags.py `OSM_TAGS` (lines 35-83): the tag keys promoted to top-level
fields, per record kind.  The table includes a relation entry even though
the pipeline never processes relations. -/
def OSM_TAGS : OsmType → List String
  | OsmType.node =>
      ["name", "man_made", "wikidata", "highway", "address", "amenity", "crossing",
        "entrance", "leisure", "natural", "office", "place", "shop", "wheelchair"]
  | OsmType.way =>
      ["name", "man_made", "wikidata", "highway", "access", "aerialway", "barrier",
        "cycleway", "lanes", "layer", "junction", "maxspeed", "network", "oneway",
        "ref", "route", "surface", "waterway"]
  | OsmType.area =>
      ["name", "natural", "man_made", "wikidata", "admin_level", "boundary",
        "landuse", "building"]
  | OsmType.relation => ["name", "man_made", "wikidata"]

/-- tags.py `tags2dict` (lines 16-32): the dict of exactly those tags
whose key is not in `OSM_TAGS[type]`. -/
def tags2dict (tags : List (String × String)) (type : OsmType) :
    List (String × String) :=
  tags.filter (fun t => decide (t.1 ∉ OSM_TAGS type))

/-- Values stored in the record dicts built by `process_element`. -/
inductive Value where
  | vNat (n : Nat)
  | vStr (s : String)
  | vBool (b : Bool)
  | vTags (d : List (String × String))
  | vGeom (g : String)
deriving DecidableEq

/-- A Python dict from field name to value. -/
def Doc : Type := String → Option Value

/-- `d[k] = v`. -/
def dset (d : Doc) (k : String) (v : Value) : Doc :=
  fun q => if q = k then some v else d q

/-- `{}`, the empty dict (also the default `base_db` of
`process_element`). -/
def emptyDoc : Doc := fun _ => none

/-- An osmium element as read by `process_element`: identity fields plus
its tag list. -/
structure Element where
  id : Nat
  version : Nat
  user : String
  visible : Bool
  timestamp : String
  tags : List (String × String)
deriving DecidableEq

/-- The string passed as `type`. -/
def typeName : OsmType → String
  | OsmType.node => "node"
  | OsmType.way => "way"
  | OsmType.area => "area"
  | OsmType.relation => "relation"

/-- The dict literal at the top of `process_element` (handler.py lines
176-185), built in source order. -/
def element_db_init (el : Element) (type : OsmType) : Doc :=
  dset (dset (dset (dset (dset (dset (dset (dset emptyDoc
    "osm_id" (Value.vNat el.id))
    "osm_version" (Value.vNat el.version))
    "osm_user" (Value.vStr el.user))
    "visible" (Value.vBool el.visible))
    "timestamp" (Value.vStr el.timestamp))
    "osm_type" (Value.vStr (typeName type)))
    "num_tags" (Value.vNat el.tags.length))
    "other_tags" (Value.vTags (tags2dict el.tags type))

/-- `element_db.update(base_db)`: the keys of `base` override. -/
def dictUpdate (d : Doc) (base : Doc) : Doc :=
  fun k =>
    match base k with
    | some v => some v
    | none => d k

/-- `prop in element.tags` / `element.tags[prop]`: first matching key. -/
def tagLookup (tags : List (String × String)) (k : String) : Option String :=
  match tags.find? (fun t => decide (t.1 = k)) with
  | some t => some t.2
  | none => none

/-- The `for prop in OSM_TAGS[type]` loop of `process_element` (handler.py
lines 192-194): copy each listed key present in the element's tags to a
top-level field. -/
def apply_osm_tags (tags : List (String × String)) (props : List String) (d : Doc) : Doc :=
  props.foldl
    (fun d prop =>
      match tagLookup tags prop with
      | some v => dset d prop (Value.vStr v)
      | none => d) d

/-- The document built by `process_element` (handler.py lines 166-194):
the initial dict, updated with `base_db`, the parsed geometry when one is
present, then one top-level field per `OSM_TAGS[type]` key found in the
element's tags. -/
def process_element_doc (el : Element) (geometry : Option String) (type : OsmType)
    (base : Doc) : Doc :=
  let d1 := dictUpdate (element_db_init el type) base
  let d2 :=
    match geometry with
    | some g => dset d1 "geometry" (Value.vGeom g)
    | none => d1
  apply_osm_tags el.tags (OSM_TAGS type) d2

/-- A concrete element for the C10 witness: one promoted tag and one
free-form tag. -/
def exampleEl : Element :=
  { id := 7, version := 1, user := "u", visible := true, timestamp := "t",
    tags := [("name", "x"), ("foo", "bar")] }

theorem processAll_append {α : Type} (s : AccState α) (l : List α) (a : α) :
    processAll s (l ++ [a]) = finalize_object (processAll s l) a := by
  simp [processAll, List.foldl_append]

theorem flush_zero {α : Type} (s : AccState α) (h : s.pendingCount = 0) :
    flush s = s := by
  simp [flush, h]

theorem flush_pos {α : Type} (s : AccState α) (h : s.pendingCount ≠ 0) :
    flush s =
      { s with
        queue := s.queue ++ [QItem.batch s.job_counter s.pending]
        job_counter := s.job_counter + 1
        pending := []
        pendingCount := 0 } := by
  simp [flush, h]

theorem finalize_object_eq_flush {α : Type} (s : AccState α) (a : α)
    (h : s.db_cache_size ≤ s.pendingCount + 1) :
    finalize_object s a =
      { s with
        queue := s.queue ++ [QItem.batch s.job_counter (s.pending ++ [a])]
        job_counter := s.job_counter + 1
        pending := []
        pendingCount := 0 } := by
  simp [finalize_object, flush, h]

theorem finalize_object_eq_append {α : Type} (s : AccState α) (a : α)
    (h : ¬ s.db_cache_size ≤ s.pendingCount + 1) :
    finalize_object s a =
      { s with pending := s.pending ++ [a], pendingCount := s.pendingCount + 1 } := by
  simp [finalize_object, h]

theorem mem_of_mem_dropLast {α : Type} {l : List α} {b : α} (h : b ∈ l.dropLast) :
    b ∈ l := by
  rw [List.dropLast_eq_take] at h
  exact List.take_subset _ _ h

theorem sum_map_length_const {α : Type} (K : Nat) :
    ∀ (L : List (List α)), (∀ b ∈ L, b.length = K) →
      (L.map List.length).sum = L.length * K := by
  intro L
  induction L with
  | nil => intro _; simp
  | cons b L ih =>
    intro h
    have hb : b.length = K := h b (by simp)
    have hrest : (L.map List.length).sum = L.length * K := ih (fun x hx => h x (by simp [hx]))
    simp [hb, hrest, Nat.succ_mul, Nat.add_comm]

/-- Invariant of the accumulator after feeding any prefix of records from
the freshly initialised state: the pending buffer holds the remainder
modulo the threshold, the job counter has advanced once per sealed batch,
and every sealed batch has exactly `K` records. -/
theorem processAll_invariant (α : Type) (K : Nat) (hK : 1 ≤ K) (l : List α) :
    (processAll (initAcc α K) l).db_cache_size = K ∧
    (processAll (initAcc α K) l).pendingCount = (processAll (initAcc α K) l).pending.length ∧
    (processAll (initAcc α K) l).pending.length = l.length % K ∧
    (processAll (initAcc α K) l).job_counter = 1 + l.length / K ∧
    (sealedBatches (processAll (initAcc α K) l)).length = l.length / K ∧
    (∀ b ∈ sealedBatches (processAll (initAcc α K) l), b.length = K) := by
  induction l using List.reverseRecOn with
  | nil => simp [processAll, initAcc, sealedBatches]
  | append_singleton l a ih =>
    obtain ⟨hdb, hcp, hlen, hj, hbn, hball⟩ := ih
    have hmod : l.length % K < K := Nat.mod_lt _ (by omega)
    have hdm : K * (l.length / K) + l.length % K = l.length := Nat.div_add_mod l.length K
    rw [processAll_append]
    by_cases hc : K ≤ (processAll (initAcc α K) l).pendingCount + 1
    · have hr : l.length % K + 1 = K := by omega
      have hmul : K * (l.length / K + 1) = K * (l.length / K) + K := Nat.mul_succ K _
      have hN1 : l.length + 1 = K * (l.length / K + 1) := by omega
      have hmod1 : (l.length + 1) % K = 0 := by
        rw [hN1]; exact Nat.mul_mod_right K _
      have hdiv1 : (l.length + 1) / K = l.length / K + 1 := by
        rw [hN1]; exact Nat.mul_div_cancel_left _ (by omega)
      rw [finalize_object_eq_flush _ a (by omega)]
      refine ⟨hdb, rfl, ?_, ?_, ?_, ?_⟩
      · simp [hmod1]
      · simp only [List.length_append, List.length_singleton]
        omega
      · simp only [sealedBatches, List.filterMap_append] at *
        simp [hbn, hdiv1]
      · intro b hb
        simp only [sealedBatches, List.filterMap_append, List.mem_append] at hb
        rcases hb with hb | hb
        · exact hball b hb
        · simp only [List.filterMap, List.mem_singleton] at hb
          subst hb
          simp [hlen, hr]
    · rw [finalize_object_eq_append _ a (by omega)]
      have hrlt : l.length % K + 1 < K := by omega
      have hN1 : l.length + 1 = (l.length % K + 1) + K * (l.length / K) := by omega
      have hmod1 : (l.length + 1) % K = l.length % K + 1 := by
        rw [hN1, Nat.add_mul_mod_self_left]
        exact Nat.mod_eq_of_lt hrlt
      have hdiv1 : (l.length + 1) / K = l.length / K := by
        rw [hN1, Nat.add_mul_div_left _ _ (by omega : 0 < K)]
        rw [Nat.div_eq_of_lt hrlt]
        omega
      refine ⟨hdb, ?_, ?_, ?_, ?_, ?_⟩
      · simp [hcp, hlen]
      · simp only [List.length_append, List.length_singleton]
        omega
      · simpa [hdiv1] using hj
      · simpa [sealedBatches, hdiv1] using hbn
      · intro b hb
        exact hball b (by simpa [sealedBatches] using hb)

/-- Claim C1: from the initialised accumulator, `N` accepted records with
threshold `K ≥ 1` followed by the final `flush` seal exactly `⌈N/K⌉`
batches, each of size `K` except possibly a smaller last one, their sizes
summing to `N`; and every `flush` of a non-empty buffer enqueues the
pending records, increments `job_counter`, and resets the buffer and
count. -/
theorem accumulator_seals_ceil_batches (α : Type) (K : Nat) (hK : 1 ≤ K) (l : List α) :
    (sealedBatches (flush (processAll (initAcc α K) l))).length = (l.length + K - 1) / K ∧
    (∀ b ∈ (sealedBatches (flush (processAll (initAcc α K) l))).dropLast, b.length = K) ∧
    (∀ b ∈ sealedBatches (flush (processAll (initAcc α K) l)), b.length ≤ K) ∧
    ((sealedBatches (flush (processAll (initAcc α K) l))).map List.length).sum = l.length ∧
    (∀ s : AccState α, s.pendingCount ≠ 0 →
      flush s =
        { s with
          queue := s.queue ++ [QItem.batch s.job_counter s.pending]
          job_counter := s.job_counter + 1
          pending := []
          pendingCount := 0 }) := by
  obtain ⟨hdb, hcp, hlen, hj, hbn, hball⟩ := processAll_invariant α K hK l
  have hmod : l.length % K < K := Nat.mod_lt _ (by omega)
  have hdm : K * (l.length / K) + l.length % K = l.length := Nat.div_add_mod l.length K
  have hcomm : l.length / K * K = K * (l.length / K) := Nat.mul_comm _ _
  by_cases hz : l.length % K = 0
  · -- no partial batch: the final flush is a no-op
    have hflush : flush (processAll (initAcc α K) l) = processAll (initAcc α K) l :=
      flush_zero _ (by omega)
    have hceil : (l.length + K - 1) / K = l.length / K := by
      have h1 : l.length + K - 1 = (K - 1) + K * (l.length / K) := by omega
      rw [h1, Nat.add_mul_div_left _ _ (by omega : 0 < K),
        Nat.div_eq_of_lt (by omega : K - 1 < K)]
      omega
    refine ⟨?_, ?_, ?_, ?_, fun s h => flush_pos s h⟩
    · rw [hflush, hbn, hceil]
    · intro b hb
      exact hball b (mem_of_mem_dropLast (by rwa [hflush] at hb))
    · intro b hb
      exact le_of_eq (hball b (by rwa [hflush] at hb))
    · rw [hflush, sum_map_length_const K _ hball, hbn]
      omega
  · -- a smaller last batch of size `l.length % K` is sealed by the flush
    have hflush := flush_pos (processAll (initAcc α K) l) (by omega)
    have hsb : sealedBatches (flush (processAll (initAcc α K) l)) =
        sealedBatches (processAll (initAcc α K) l) ++
          [(processAll (initAcc α K) l).pending] := by
      rw [hflush]
      simp [sealedBatches, List.filterMap_append]
    have hmul : K * (l.length / K + 1) = K * (l.length / K) + K := Nat.mul_succ K _
    have hceil : (l.length + K - 1) / K = l.length / K + 1 := by
      have h1 : l.length + K - 1 = (l.length % K - 1) + K * (l.length / K + 1) := by omega
      rw [h1, Nat.add_mul_div_left _ _ (by omega : 0 < K),
        Nat.div_eq_of_lt (by omega : l.length % K - 1 < K)]
      omega
    refine ⟨?_, ?_, ?_, ?_, fun s h => flush_pos s h⟩
    · rw [hsb, hceil]
      simp [hbn]
    · intro b hb
      rw [hsb, List.dropLast_concat] at hb
      exact hball b hb
    · intro b hb
      rw [hsb, List.mem_append] at hb
      rcases hb with hb | hb
      · exact le_of_eq (hball b hb)
      · simp only [List.mem_singleton] at hb
        subst hb
        omega
    · rw [hsb]
      simp only [List.map_append, List.map_cons, List.map_nil, List.sum_append]
      rw [sum_map_length_const K _ hball, hbn]
      simp [hlen]
      omega

/-- Claim C1 witness: threshold 2 over three records seals two batches
whose sizes sum to three. -/
theorem accumulator_seals_ceil_batches_witness :
    ((sealedBatches (flush (processAll (initAcc Nat 2) [0, 1, 2]))).map List.length).sum = 3 :=
  (accumulator_seals_ceil_batches Nat 2 (by omega) [0, 1, 2]).2.2.2.1

/-- Claim C6: with one-record appends and flushes that empty the buffer,
the modulus-based threshold check of osm2es.py seals batches at exactly
the same points as handler.py's explicit running counter: the sealed
batches and the residual buffer coincide on every input sequence. -/
theorem variant_matches_counter (α : Type) (K : Nat) (hK : 1 ≤ K) (l : List α) :
    (l.foldl (variant_accept K) ([], [])).2 = sealedBatches (processAll (initAcc α K) l) ∧
    (l.foldl (variant_accept K) ([], [])).1 = (processAll (initAcc α K) l).pending := by
  induction l using List.reverseRecOn with
  | nil => simp [processAll, initAcc, sealedBatches]
  | append_singleton l a ih =>
    obtain ⟨hv2, hv1⟩ := ih
    obtain ⟨hdb, hcp, hlen, hj, hbn, hball⟩ := processAll_invariant α K hK l
    have hmod : l.length % K < K := Nat.mod_lt _ (by omega)
    rw [List.foldl_append, processAll_append]
    simp only [List.foldl_cons, List.foldl_nil]
    have hvlen : ((l.foldl (variant_accept K) ([], [])).1 ++ [a]).length = l.length % K + 1 := by
      simp [hv1, hlen]
    by_cases hc : l.length % K + 1 = K
    · have hcond : ((l.foldl (variant_accept K) ([], [])).1 ++ [a]).length % K = 0 := by
        rw [hvlen, hc, Nat.mod_self]
      rw [finalize_object_eq_flush _ a (by omega)]
      simp only [variant_accept, check_cache_save]
      rw [if_pos hcond]
      constructor
      · simp [save_cache, sealedBatches, List.filterMap_append, hv2, hv1]
      · simp [save_cache]
    · have hcond : ¬ ((l.foldl (variant_accept K) ([], [])).1 ++ [a]).length % K = 0 := by
        rw [hvlen, Nat.mod_eq_of_lt (by omega : l.length % K + 1 < K)]
        omega
      rw [finalize_object_eq_append _ a (by omega)]
      simp only [variant_accept, check_cache_save]
      rw [if_neg hcond]
      constructor
      · simpa [sealedBatches] using hv2
      · simp [hv1]

/-- Claim C6 witness: the two accumulators agree on a concrete
three-record run with threshold 2. -/
theorem variant_matches_counter_witness :
    (([10, 20, 30] : List Nat).foldl (variant_accept 2) ([], [])).2 =
      sealedBatches (processAll (initAcc Nat 2) [10, 20, 30]) :=
  (variant_matches_counter Nat 2 (by omega) [10, 20, 30]).1

/-- Claim C5: `flush` on an empty pending buffer returns the state
unchanged, and `flush` directly after `flush` has no additional effect. -/
theorem flush_empty_noop_and_idempotent (α : Type) (s : AccState α) :
    (s.pendingCount = 0 → flush s = s) ∧ flush (flush s) = flush s := by
  constructor
  · intro h
    simp [flush, h]
  · by_cases h : s.pendingCount = 0
    · simp [flush, h]
    · simp [flush, h]

/-- Claim C5 witness: the theorem applied to a concrete empty-buffer
state. -/
theorem flush_empty_noop_witness :
    flush (initAcc Nat 5) = initAcc Nat 5 :=
  (flush_empty_noop_and_idempotent Nat (initAcc Nat 5)).1 rfl

theorem writer_thread_batches {α : Type} (bulk : List α → BulkResult)
    (batches : List (Nat × List α)) (rest : List (QItem α)) (acc : Nat) :
    writer_thread bulk (batches.map (fun p => QItem.batch p.1 p.2) ++ rest) acc =
      writer_thread bulk rest (acc + (batches.map (fun p => write_actions bulk p.2)).sum) := by
  induction batches generalizing acc with
  | nil => simp
  | cons p ps ih =>
    simp only [List.map_cons, List.cons_append, writer_thread, List.sum_cons, List.append_eq]
    rw [ih, Nat.add_assoc]

/-- Claim C3: failed bulk writes are contained in the worker: an exception
outcome contributes an accepted count of zero, the worker still consumes
every following item and only returns at a termination token, and its
cumulative indexed count is the sum of the accepted counts of its
batches. -/
theorem worker_error_containment (α : Type) (bulk : List α → BulkResult)
    (batches : List (Nat × List α)) (rest : List (QItem α)) :
    writer_thread bulk (batches.map (fun p => QItem.batch p.1 p.2) ++ QItem.token :: rest) 0 =
      some ((batches.map (fun p => write_actions bulk p.2)).sum) ∧
    writer_thread bulk (batches.map (fun p => QItem.batch p.1 p.2)) 0 = none ∧
    (∀ data msg, bulk data = BulkResult.exn msg → write_actions bulk data = 0) := by
  refine ⟨?_, ?_, ?_⟩
  · rw [writer_thread_batches]
    simp [writer_thread]
  · have h := writer_thread_batches bulk batches ([] : List (QItem α)) 0
    simpa [writer_thread] using h
  · intro data msg h
    simp [write_actions, h]

/-- Claim C3 witness: a worker that sees a failing batch and a succeeding
batch still reaches its token and reports the sum of accepted counts. -/
theorem worker_error_containment_witness :
    writer_thread bulkDemo
        (([(1, [10]), (2, [20, 30])] : List (Nat × List Nat)).map
          (fun p => QItem.batch p.1 p.2) ++ QItem.token :: []) 0 =
      some ((([(1, [10]), (2, [20, 30])] : List (Nat × List Nat)).map
        (fun p => write_actions bulkDemo p.2)).sum) :=
  (worker_error_containment Nat bulkDemo [(1, [10]), (2, [20, 30])] []).1

theorem token_put_fold {α : Type} (writers : List Nat) (a : AccState α)
    (e : List (RunEvent α)) :
    writers.foldl
        (fun (p : AccState α × List (RunEvent α)) _ =>
          ({ p.1 with queue := p.1.queue ++ [QItem.token] },
            p.2 ++ [RunEvent.putItem QItem.token])) (a, e) =
      ({ a with queue := a.queue ++ List.replicate writers.length QItem.token },
        e ++ List.replicate writers.length (RunEvent.putItem QItem.token)) := by
  induction writers generalizing a e with
  | nil => simp
  | cons w ws ih =>
    simp only [List.foldl_cons, List.length_cons]
    rw [ih]
    simp [List.replicate_succ, List.append_assoc]

theorem filter_isTokenPut_replicate (α : Type) (n : Nat) :
    (List.replicate n (RunEvent.putItem (QItem.token (α := α)))).filter isTokenPut =
      List.replicate n (RunEvent.putItem QItem.token) := by
  induction n with
  | zero => rfl
  | succ n ih => simp [List.replicate_succ, List.filter_cons, isTokenPut, ih]

theorem filter_isTokenPut_joins (α : Type) (l : List Nat) :
    (l.map (RunEvent.joinWorker (α := α))).filter isTokenPut = [] := by
  induction l with
  | nil => rfl
  | cons w ws ih => simp [List.filter_cons, isTokenPut, ih]

theorem filter_isJoin_replicate (α : Type) (n : Nat) :
    (List.replicate n (RunEvent.putItem (QItem.token (α := α)))).filter isJoin = [] := by
  induction n with
  | zero => rfl
  | succ n ih => simp [List.replicate_succ, List.filter_cons, isJoin, ih]

theorem filter_isJoin_joins (α : Type) (l : List Nat) :
    (l.map (RunEvent.joinWorker (α := α))).filter isJoin = l.map RunEvent.joinWorker := by
  induction l with
  | nil => rfl
  | cons w ws ih => simp [List.filter_cons, isJoin, ih]

theorem run_shutdown_trace (α : Type) (st : HState α) (W : Nat) :
    (run_shutdown st (List.range W)).2 =
      [RunEvent.flushCall] ++ List.replicate W (RunEvent.putItem QItem.token) ++
        [RunEvent.closeQueue] ++ (List.range W).map RunEvent.joinWorker ++
        [RunEvent.statusReport (show_import_status st.counter)] := by
  simp only [run_shutdown, token_put_fold, List.length_range]

theorem run_shutdown_queue (α : Type) (st : HState α) (W : Nat) :
    (run_shutdown st (List.range W)).1.acc.queue =
      (flush st.acc).queue ++ List.replicate W QItem.token := by
  simp only [run_shutdown, token_put_fold, List.length_range]

theorem run_shutdown_last (α : Type) (st : HState α) (W : Nat) :
    (run_shutdown st (List.range W)).2.getLast? =
      some (RunEvent.statusReport (show_import_status st.counter)) := by
  rw [run_shutdown_trace]
  have h : [RunEvent.flushCall (α := α)] ++ List.replicate W (RunEvent.putItem QItem.token) ++
      [RunEvent.closeQueue] ++ (List.range W).map RunEvent.joinWorker ++
      [RunEvent.statusReport (show_import_status st.counter)] =
      ([RunEvent.flushCall] ++ List.replicate W (RunEvent.putItem QItem.token) ++
        [RunEvent.closeQueue] ++ (List.range W).map RunEvent.joinWorker) ++
        [RunEvent.statusReport (show_import_status st.counter)] := by
    simp [List.append_assoc]
  rw [h, List.getLast?_concat]

/-- Claim C2: the shutdown sequence of `run` performs, strictly in order,
one `flush`, then exactly `worker_count` token puts (all recorded on the
queue after any flushed batch), then the queue close, then one join per
worker, and the final step comes after all `worker_count` joins. -/
theorem shutdown_protocol (α : Type) (st : HState α) (W : Nat) :
    (run_shutdown st (List.range W)).2 =
      [RunEvent.flushCall] ++ List.replicate W (RunEvent.putItem QItem.token) ++
        [RunEvent.closeQueue] ++ (List.range W).map RunEvent.joinWorker ++
        [RunEvent.statusReport (show_import_status st.counter)] ∧
    ((run_shutdown st (List.range W)).2.filter isTokenPut).length = W ∧
    ((run_shutdown st (List.range W)).2.filter isJoin).length = W ∧
    (run_shutdown st (List.range W)).1.acc.queue =
      (flush st.acc).queue ++ List.replicate W QItem.token ∧
    (run_shutdown st (List.range W)).2.getLast? =
      some (RunEvent.statusReport (show_import_status st.counter)) ∧
    (∀ w, w < W → RunEvent.joinWorker w ∈ (run_shutdown st (List.range W)).2.dropLast) := by
  have htr := run_shutdown_trace α st W
  refine ⟨htr, ?_, ?_, run_shutdown_queue α st W, run_shutdown_last α st W, ?_⟩
  · rw [htr]
    simp [List.filter_append, List.filter_cons, isTokenPut,
      filter_isTokenPut_replicate, filter_isTokenPut_joins]
  · rw [htr]
    simp [List.filter_append, List.filter_cons, isJoin,
      filter_isJoin_replicate, filter_isJoin_joins]
  · intro w hw
    rw [htr]
    have h : [RunEvent.flushCall (α := α)] ++ List.replicate W (RunEvent.putItem QItem.token) ++
        [RunEvent.closeQueue] ++ (List.range W).map RunEvent.joinWorker ++
        [RunEvent.statusReport (show_import_status st.counter)] =
        ([RunEvent.flushCall] ++ List.replicate W (RunEvent.putItem QItem.token) ++
          [RunEvent.closeQueue] ++ (List.range W).map RunEvent.joinWorker) ++
          [RunEvent.statusReport (show_import_status st.counter)] := by
      simp [List.append_assoc]
    rw [h, List.dropLast_concat]
    simp only [List.mem_append, List.mem_map, List.mem_range]
    right
    exact ⟨w, hw, rfl⟩

/-- Claim C2 witness: two workers receive two tokens after the flushed
batch and both joins precede the final step. -/
theorem shutdown_protocol_witness :
    ((run_shutdown (initHandler Nat 3) (List.range 2)).2.filter isTokenPut).length = 2 :=
  (shutdown_protocol Nat (initHandler Nat 3) 2).2.1

/-- Claim C4 counterexample: a run that read exactly one node record ends
with a final `show_import_status` that emits nothing, because the total 1
is not a multiple of 50000 — the final emission is not unconditional. -/
theorem final_report_not_unconditional :
    (run_shutdown
        (apply_file (initHandler Nat 5) [OsmInput.nodeIn ⟨true, true, some 42⟩])
        (List.range 1)).2.getLast? =
      some (RunEvent.statusReport none) := by
  rfl

/-- Claim C4 (amended): the progress reporter emits a line exactly when
the running total is a multiple of 50000, and the final emission of `run`
is that same conditional reporter applied to the final counts, so it too
reports only when the final total is a multiple of the interval. -/
theorem progress_report_sampling (α : Type) (st : HState α) (W : Nat) (c : OsmCounter) :
    (show_import_status c = some c ↔ counterTotal c % 50000 = 0) ∧
    (show_import_status c = none ↔ ¬ counterTotal c % 50000 = 0) ∧
    (run_shutdown st (List.range W)).2.getLast? =
      some (RunEvent.statusReport (show_import_status st.counter)) := by
  refine ⟨?_, ?_, run_shutdown_last α st W⟩
  · constructor
    · intro h
      by_contra hc
      simp [show_import_status, hc] at h
    · intro h
      simp [show_import_status, h]
  · constructor
    · intro h
      intro hc
      simp [show_import_status, hc] at h
    · intro h
      simp [show_import_status, h]

/-- Claim C7: a failed index-creation setup aborts the run with the
`ValueError` message, for any configuration and any input whatsoever (so
no worker is started and no batch is produced), and once setup succeeds
the run always completes — no later failure terminates the process. -/
theorem setup_failure_is_only_fatal (α : Type) (K W : Nat) (inputs : List (OsmInput α)) :
    (∀ (K' W' : Nat) (inputs' : List (OsmInput α)),
      osm2es_run α false K' W' inputs' =
        Except.error "Error creating the ES index, check URL and credentials") ∧
    (∃ r, osm2es_run α true K W inputs = Except.ok r) := by
  exact ⟨fun _ _ _ => rfl, ⟨_, rfl⟩⟩

theorem apply_input_of_raises {α : Type} (st : HState α) (x : OsmInput α)
    (h : raisesShaping x = true) : apply_input st x = st := by
  cases x with
  | nodeIn o =>
    cases ho : o.shaped with
    | some r => simp [raisesShaping, ho] at h
    | none => simp [apply_input, node_handler, ho]
  | wayIn o =>
    cases ho : o.shaped with
    | some r => simp [raisesShaping, ho] at h
    | none => simp [apply_input, way_handler, ho]
  | relIn => rfl
  | areaIn o =>
    cases ho : o.shaped with
    | some r => simp [raisesShaping, ho] at h
    | none => simp [apply_input, area_handler, ho]

/-- Claim C8: a record whose shaping raises is skipped in place: the
per-kind handler catches the exception and returns the state unchanged,
and a run containing the malformed record equals the same run with it
removed — pending batch, counters and the rest of the run are
unaffected. -/
theorem malformed_record_skipped (α : Type) (st : HState α)
    (pre post : List (OsmInput α)) (x : OsmInput α) (h : raisesShaping x = true) :
    apply_input st x = st ∧
    apply_file st (pre ++ x :: post) = apply_file st (pre ++ post) := by
  refine ⟨apply_input_of_raises st x h, ?_⟩
  simp only [apply_file, List.foldl_append, List.foldl_cons]
  rw [apply_input_of_raises _ x h]

/-- Claim C8 witness: a node whose shaping raises leaves the fresh state
untouched. -/
theorem malformed_record_skipped_witness :
    apply_input (initHandler Nat 3) (OsmInput.nodeIn ⟨true, true, none⟩) =
      initHandler Nat 3 :=
  (malformed_record_skipped Nat (initHandler Nat 3) [] []
    (OsmInput.nodeIn ⟨true, true, none⟩) rfl).1

theorem apply_input_rel_count {α : Type} (st : HState α) (x : OsmInput α) :
    (apply_input st x).counter.rel = st.counter.rel := by
  cases x with
  | nodeIn o =>
    simp only [apply_input, node_handler]
    split
    · cases o.shaped with
      | some r => simp [process_element, bumpCounter]
      | none => rfl
    · rfl
  | wayIn o =>
    simp only [apply_input, way_handler]
    split
    · rfl
    · cases o.shaped with
      | some r => simp [process_element, bumpCounter]
      | none => rfl
  | relIn => rfl
  | areaIn o =>
    simp only [apply_input, area_handler]
    split
    · rfl
    · cases o.shaped with
      | some r => simp [process_element, bumpCounter]
      | none => rfl

theorem apply_file_rel_count {α : Type} (l : List (OsmInput α)) :
    ∀ st : HState α, (apply_file st l).counter.rel = st.counter.rel := by
  induction l with
  | nil => intro st; rfl
  | cons x xs ih =>
    intro st
    simp only [apply_file, List.foldl_cons]
    rw [show xs.foldl apply_input (apply_input st x) = apply_file (apply_input st x) xs from rfl,
      ih (apply_input st x), apply_input_rel_count]

/-- Claim C9: the relation callback is a no-op, so from the initial state
the "rel" count is 0 after every prefix of every run, every emitted
progress report shows a "rel" count of 0, and yet the tag table does carry
a relation entry. -/
theorem relation_callback_noop (α : Type) (K : Nat) (l : List (OsmInput α)) :
    (∀ st : HState α, relation_handler st = st) ∧
    (∀ n : Nat, (apply_file (initHandler α K) (l.take n)).counter.rel = 0) ∧
    (∀ (n : Nat) (c : OsmCounter),
      show_import_status (apply_file (initHandler α K) (l.take n)).counter = some c →
        c.rel = 0) ∧
    OSM_TAGS OsmType.relation = ["name", "man_made", "wikidata"] := by
  have hrel : ∀ n : Nat, (apply_file (initHandler α K) (l.take n)).counter.rel = 0 := by
    intro n
    rw [apply_file_rel_count]
    rfl
  refine ⟨fun _ => rfl, hrel, ?_, rfl⟩
  intro n c hc
  simp only [show_import_status] at hc
  by_cases h :
      counterTotal (apply_file (initHandler α K) (l.take n)).counter % 50000 = 0
  · rw [if_pos h] at hc
    cases hc
    exact hrel n
  · rw [if_neg h] at hc
    cases hc

/-- Claim C9 witness: a run over one node and one relation input keeps the
"rel" count at 0. -/
theorem relation_callback_noop_witness :
    (apply_file (initHandler Nat 2)
      ([OsmInput.nodeIn ⟨true, true, some 1⟩, OsmInput.relIn].take 2)).counter.rel = 0 :=
  (relation_callback_noop Nat 2
    [OsmInput.nodeIn ⟨true, true, some 1⟩, OsmInput.relIn]).2.1 2

theorem apply_osm_tags_cons (tags : List (String × String)) (p : String)
    (ps : List String) (d : Doc) :
    apply_osm_tags tags (p :: ps) d =
      apply_osm_tags tags ps
        (match tagLookup tags p with
          | some v => dset d p (Value.vStr v)
          | none => d) := rfl

theorem apply_osm_tags_frame (tags : List (String × String)) (props : List String)
    (k : String) (hk : k ∉ props) :
    ∀ d : Doc, apply_osm_tags tags props d k = d k := by
  induction props with
  | nil => intro d; rfl
  | cons p ps ih =>
    intro d
    have hkp : k ≠ p := fun h => hk (by simp [h])
    have hkps : k ∉ ps := fun h => hk (by simp [h])
    rw [apply_osm_tags_cons]
    cases htl : tagLookup tags p with
    | some v =>
      rw [ih hkps]
      simp [dset, hkp]
    | none => exact ih hkps _

theorem apply_osm_tags_mem (tags : List (String × String)) (props : List String)
    (k : String) (v : String) (hv : tagLookup tags k = some v) :
    ∀ d : Doc, k ∈ props → apply_osm_tags tags props d k = some (Value.vStr v) := by
  induction props with
  | nil =>
    intro d h
    simp at h
  | cons p ps ih =>
    intro d hmem
    rw [apply_osm_tags_cons]
    by_cases hps : k ∈ ps
    · exact ih _ hps
    · have hkp : k = p := by
        rcases List.mem_cons.mp hmem with h | h
        · exact h
        · exact absurd h hps
      subst hkp
      rw [hv, apply_osm_tags_frame tags ps k hps]
      simp [dset]

/-- Claim C10: in every record built by `process_element` (from a base
dict that does not itself define `other_tags`, as at all three call
sites), `other_tags` holds exactly the element's tag keys outside
`OSM_TAGS[type]`, every `OSM_TAGS[type]` key present in the element's tags
becomes a top-level field with the tag's value, and no tag key is both a
top-level `OSM_TAGS` field and inside `other_tags`. -/
theorem process_element_tag_partition (el : Element) (geometry : Option String)
    (type : OsmType) (base : Doc) (hbase : base "other_tags" = none) :
    process_element_doc el geometry type base "other_tags" =
      some (Value.vTags (tags2dict el.tags type)) ∧
    (∀ k, (∃ p ∈ tags2dict el.tags type, p.1 = k) ↔
      ((∃ p ∈ el.tags, p.1 = k) ∧ k ∉ OSM_TAGS type)) ∧
    (∀ k v, k ∈ OSM_TAGS type → tagLookup el.tags k = some v →
      process_element_doc el geometry type base k = some (Value.vStr v)) ∧
    (∀ k, k ∈ OSM_TAGS type → ¬ ∃ p ∈ tags2dict el.tags type, p.1 = k) := by
  have hno : "other_tags" ∉ OSM_TAGS type := by
    cases type <;> decide
  refine ⟨?_, ?_, ?_, ?_⟩
  · simp only [process_element_doc]
    rw [apply_osm_tags_frame el.tags (OSM_TAGS type) "other_tags" hno]
    cases geometry with
    | some g =>
      simp [dset, dictUpdate, hbase, element_db_init]
    | none =>
      simp [dictUpdate, hbase, element_db_init, dset]
  · intro k
    constructor
    · rintro ⟨p, hp, rfl⟩
      rw [tags2dict, List.mem_filter] at hp
      refine ⟨⟨p, hp.1, rfl⟩, ?_⟩
      have := hp.2
      simpa using this
    · rintro ⟨⟨p, hp, rfl⟩, hk⟩
      refine ⟨p, ?_, rfl⟩
      rw [tags2dict, List.mem_filter]
      exact ⟨hp, by simpa using hk⟩
  · intro k v hk hv
    simp only [process_element_doc]
    exact apply_osm_tags_mem el.tags (OSM_TAGS type) k v hv _ hk
  · intro k hk ⟨p, hp, hpk⟩
    rw [tags2dict, List.mem_filter] at hp
    have : p.1 ∉ OSM_TAGS type := by simpa using hp.2
    exact this (hpk ▸ hk)

/-- Claim C10 witness: the theorem applied to a concrete node element
with an empty base dict. -/
theorem process_element_tag_partition_witness :
    process_element_doc exampleEl (some "gj") OsmType.node emptyDoc "other_tags" =
      some (Value.vTags (tags2dict exampleEl.tags OsmType.node)) :=
  (process_element_tag_partition exampleEl (some "gj") OsmType.node emptyDoc rfl).1

end Osm2Es
